import Mathlib

/-!
Shallow embedding of the DNS codec and resolver helpers of this repository
(src/dns.rs, src/packet.rs, src/main.rs).  Machine integers are modelled as
`Nat` with explicit `% 2^w` at the points where the Rust code performs a
narrowing cast or fixed-width arithmetic; byte sinks are modelled as the
list of emitted octets; fallible reads return `Option` / explicit result
inductives.  Rust `String` names are modelled as `List Char`; the byte of a
character is `Char.toNat`, which agrees with the UTF-8 encoding on the
7-bit ASCII regime the specified domains live in.
-/

/-- Big-endian bytes of a `u16` value (`u16::to_be_bytes`). -/
def u16Bytes (v : Nat) : List Nat :=
  [v / 256 % 256, v % 256]

/-- Big-endian bytes of a `u32` value (`u32::to_be_bytes`). -/
def u32Bytes (v : Nat) : List Nat :=
  [v / 16777216 % 256, v / 65536 % 256, v / 256 % 256, v % 256]

/-- Numeric value of a Rust `bool as u8` cast. -/
def boolNum (b : Bool) : Nat := if b then 1 else 0

/-- Mirrors `enum ResultCode` in src/dns.rs. -/
inductive ResultCode
  | NOERROR
  | FORMERR
  | SERVFAIL
  | NXDOMAIN
  | NOTIMP
  | REFUSED
deriving DecidableEq

/-- Discriminant of `ResultCode` (`self.rcode as u8` in src/dns.rs). -/
def ResultCode.toNum : ResultCode → Nat
  | .NOERROR => 0
  | .FORMERR => 1
  | .SERVFAIL => 2
  | .NXDOMAIN => 3
  | .NOTIMP => 4
  | .REFUSED => 5

/-- Mirrors `ResultCode::from_num` in src/dns.rs: values other than 1..5 are
coerced to `NOERROR`. -/
def ResultCode.from_num (num : Nat) : ResultCode :=
  if num = 1 then .FORMERR
  else if num = 2 then .SERVFAIL
  else if num = 3 then .NXDOMAIN
  else if num = 4 then .NOTIMP
  else if num = 5 then .REFUSED
  else .NOERROR

/-- Mirrors `struct DnsHeader` in src/dns.rs; `u16` fields are `Nat`s kept
below `2 ^ 16` by the operations that produce them. -/
structure DnsHeader where
  id : Nat
  qr : Bool
  opcode : Nat
  aa : Bool
  tc : Bool
  rd : Bool
  ra : Bool
  z : Bool
  ad : Bool
  cd : Bool
  rcode : ResultCode
  qd_count : Nat
  an_count : Nat
  ns_count : Nat
  ar_count : Nat
deriving DecidableEq

/-- Mirrors `DnsHeader::new` in src/dns.rs. -/
def DnsHeader.new : DnsHeader :=
  { id := 0, qr := false, opcode := 0, aa := false, tc := false, rd := false
    ra := false, z := false, ad := false, cd := false, rcode := .NOERROR
    qd_count := 0, an_count := 0, ns_count := 0, ar_count := 0 }

/-- Mirrors `DnsHeader::write` in src/dns.rs: the twelve octets it emits, in
order.  The flag bytes are assembled with the same shifts and ors as the
source; `% 256` models the `u8` arithmetic. -/
def DnsHeader.write (h : DnsHeader) : List Nat :=
  u16Bytes h.id
    ++ [(boolNum h.rd ||| (boolNum h.tc <<< 1) ||| (boolNum h.aa <<< 2)
          ||| ((h.opcode <<< 3) % 256) ||| (boolNum h.qr <<< 7)) % 256]
    ++ [(h.rcode.toNum ||| (boolNum h.cd <<< 4) ||| (boolNum h.ad <<< 5)
          ||| (boolNum h.z <<< 6) ||| (boolNum h.ra <<< 7)) % 256]
    ++ u16Bytes h.qd_count ++ u16Bytes h.an_count
    ++ u16Bytes h.ns_count ++ u16Bytes h.ar_count

/-- Mirrors `DnsHeader::read` in src/dns.rs over a byte string: six
big-endian `u16` reads, with the flag word split into its high byte `a` and
low byte `b` exactly as the source does (`opcode = a >> 3`,
`rcode = from_num(b)`, and single-bit tests). -/
def DnsHeader.read (bs : List Nat) : Option DnsHeader :=
  if 12 ≤ bs.length then
    let flags := bs.getD 2 0 * 256 + bs.getD 3 0
    let a := flags >>> 8
    let b := flags &&& 0xFF
    some
      { id := bs.getD 0 0 * 256 + bs.getD 1 0
        rd := decide (0 < (a &&& (1 <<< 0)))
        tc := decide (0 < (a &&& (1 <<< 1)))
        aa := decide (0 < (a &&& (1 <<< 2)))
        opcode := a >>> 3
        qr := decide (0 < (a &&& (1 <<< 7)))
        rcode := ResultCode.from_num b
        cd := decide (0 < (b &&& (1 <<< 4)))
        ad := decide (0 < (b &&& (1 <<< 5)))
        z := decide (0 < (b &&& (1 <<< 6)))
        ra := decide (0 < (b &&& (1 <<< 7)))
        qd_count := bs.getD 4 0 * 256 + bs.getD 5 0
        an_count := bs.getD 6 0 * 256 + bs.getD 7 0
        ns_count := bs.getD 8 0 * 256 + bs.getD 9 0
        ar_count := bs.getD 10 0 * 256 + bs.getD 11 0 }
  else none

/-- Mirrors `enum QueryType` in src/dns.rs. -/
inductive QueryType
  | UNKNOWN (x : Nat)
  | A
  | NS
  | CNAME
  | SOA
  | MX
  | AAAA
deriving DecidableEq

/-- Mirrors `QueryType::to_num` in src/dns.rs. -/
def QueryType.to_num : QueryType → Nat
  | .UNKNOWN x => x
  | .A => 1
  | .NS => 2
  | .CNAME => 5
  | .SOA => 6
  | .MX => 15
  | .AAAA => 28

/-- Mirrors `QueryType::from_num` in src/dns.rs. -/
def QueryType.from_num (num : Nat) : QueryType :=
  if num = 1 then .A
  else if num = 2 then .NS
  else if num = 5 then .CNAME
  else if num = 6 then .SOA
  else if num = 15 then .MX
  else if num = 28 then .AAAA
  else .UNKNOWN num

/-- Header used to exhibit the C1 failure: `qr` set, all else as in
`DnsHeader::new`. -/
def c1Header : DnsHeader := { DnsHeader.new with qr := true }

/-- C1: the header round-trip claim fails on the code.  Serializing the
in-range header with `qr = true` and `opcode = 0` and parsing the twelve
octets back yields `opcode = 16`: `DnsHeader::read` computes
`opcode = a >> 3` without masking to four bits, so the `qr` bit (bit 7 of
byte A) leaks into the parsed opcode. -/
theorem claim_C1_header_roundtrip_fails :
    (DnsHeader.read (DnsHeader.write c1Header)).map DnsHeader.opcode = some 16
      ∧ c1Header.opcode = 0 ∧ c1Header.qr = true := by
  decide

/-- C4 counterexample: `from_num(to_num(UNKNOWN(1))) = A ≠ UNKNOWN(1)`, so
the round-trip does not hold for every `UNKNOWN(n)`. -/
theorem claim_C4_counterexample :
    QueryType.from_num (QueryType.to_num (.UNKNOWN 1)) = QueryType.A
      ∧ QueryType.A ≠ QueryType.UNKNOWN 1 := by
  decide

/-- C4 amended: `from_num(to_num(x)) = x` for every `QueryType` x except the
values `UNKNOWN(n)` whose tag `n` collides with an assigned code
(1, 2, 5, 6, 15, 28). -/
theorem claim_C4_roundtrip_amended (x : QueryType)
    (h : ∀ n, x = QueryType.UNKNOWN n →
      n ≠ 1 ∧ n ≠ 2 ∧ n ≠ 5 ∧ n ≠ 6 ∧ n ≠ 15 ∧ n ≠ 28) :
    QueryType.from_num (QueryType.to_num x) = x := by
  cases x with
  | UNKNOWN n =>
    obtain ⟨h1, h2, h5, h6, h15, h28⟩ := h n rfl
    simp [QueryType.to_num, QueryType.from_num, h1, h2, h5, h6, h15, h28]
  | A => rfl
  | NS => rfl
  | CNAME => rfl
  | SOA => rfl
  | MX => rfl
  | AAAA => rfl

/-- C4 witness: the amended round-trip at the concrete value `UNKNOWN(3)`. -/
theorem claim_C4_witness :
    QueryType.from_num (QueryType.to_num (.UNKNOWN 3)) = QueryType.UNKNOWN 3 :=
  claim_C4_roundtrip_amended (.UNKNOWN 3) (by
    intro n hn
    cases hn
    decide)

/-- Mirrors Rust `str::split('.')` (src/packet.rs uses `name.split('.')`):
the maximal runs of non-dot characters, keeping empty pieces, one piece
more than there are dots. -/
def splitOnDot : List Char → List (List Char)
  | [] => [[]]
  | c :: rest =>
    if c = '.' then [] :: splitOnDot rest
    else
      match splitOnDot rest with
      | [] => [[c]]
      | l :: ls => (c :: l) :: ls

/-- Mirrors `Vec::join(".")` on the collected label list in
`PacketReader::read_name`. -/
def joinDot : List (List Char) → List Char
  | [] => []
  | [l] => l
  | l :: ls => l ++ '.' :: joinDot ls

theorem splitOnDot_ne_nil (d : List Char) : splitOnDot d ≠ [] := by
  cases d with
  | nil => simp [splitOnDot]
  | cons c rest =>
    by_cases hc : c = '.'
    · simp [splitOnDot, hc]
    · simp only [splitOnDot, if_neg hc]
      cases splitOnDot rest <;> simp

theorem joinDot_splitOnDot (d : List Char) : joinDot (splitOnDot d) = d := by
  induction d with
  | nil => rfl
  | cons c rest ih =>
    by_cases hc : c = '.'
    · subst hc
      simp only [splitOnDot, if_pos rfl]
      rcases hS : splitOnDot rest with _ | ⟨l, ls⟩
      · exact absurd hS (splitOnDot_ne_nil rest)
      · rw [hS] at ih
        simp [joinDot, ih]
    · simp only [splitOnDot, if_neg hc]
      rcases hS : splitOnDot rest with _ | ⟨l, ls⟩
      · exact absurd hS (splitOnDot_ne_nil rest)
      · rw [hS] at ih
        cases ls with
        | nil => simp [joinDot] at ih ⊢; exact ih
        | cons l2 ls2 => simp [joinDot] at ih ⊢; exact ih

/-- Octets emitted for one label in `PacketWriter::write_name`: the length
octet (`part.len() as u8`, hence `% 256`) followed by the label's bytes. -/
def labelBytes (l : List Char) : List Nat :=
  (l.length % 256) :: l.map Char.toNat

/-- Mirrors `PacketWriter::write_name` in src/packet.rs: for each piece of
the split on '.', a length octet then the raw bytes, then a terminating
zero octet.  The value returned by the Rust function (bytes written) is the
length of this list. -/
def write_name (name : List Char) : List Nat :=
  ((splitOnDot name).map labelBytes).flatten ++ [0]

/-- Mirrors `PacketWriter::get_name_len` in src/packet.rs. -/
def get_name_len (name : List Char) : Nat :=
  ((splitOnDot name).map (fun part => 1 + part.length)).sum + 1

/-- Outcome of `PacketReader::read_name`, instrumented with the value the
source keeps in its loop variable `jumps_performed`: the decoded name on
success, the jump-limit error (`Limit of 20 jumps exceeded`) or an
end-of-input error otherwise.  `fuelOut` is an artifact of the fuelled
embedding and is proven unreachable where the claims need it. -/
inductive NameRes
  | ok (name : List Char) (jumps : Nat)
  | errLoop (jumps : Nat)
  | errEof (jumps : Nat)
  | fuelOut
deriving DecidableEq

/-- Loop of `PacketReader::read_name` in src/packet.rs, one constructor per
iteration outcome.  `pos` is the cursor position, `jumps` the count of
pointer jumps performed, `firstReturn` the recorded `first_jump_pos`, `acc`
the labels collected so far.  A byte with both top bits set is a pointer
whose 14-bit offset is `((len ^ 0xC0) << 8) | b2`; a zero byte terminates;
otherwise `len` bytes are read, lossily decoded and lowercased
(`Char.ofNat`/`Char.toLower` agree with the source on 7-bit ASCII). -/
def readNameLoop (data : List Nat) :
    Nat → Nat → Nat → Option Nat → List (List Char) → NameRes
  | 0, _, _, _, _ => .fuelOut
  | fuel + 1, pos, jumps, firstReturn, acc =>
    if 20 < jumps then .errLoop jumps
    else
      match data[pos]? with
      | none => .errEof jumps
      | some len =>
        if len &&& 0xC0 = 0xC0 then
          match data[pos + 1]? with
          | none => .errEof jumps
          | some b2 =>
            readNameLoop data fuel (((len ^^^ 0xC0) <<< 8) ||| b2) (jumps + 1)
              (some (firstReturn.getD (pos + 2))) acc
        else if len = 0 then .ok (joinDot acc) jumps
        else if pos + 1 + len ≤ data.length then
          readNameLoop data fuel (pos + 1 + len) jumps firstReturn
            (acc ++ [((data.drop (pos + 1)).take len).map
              (fun b => (Char.ofNat b).toLower)])
        else .errEof jumps

/-- Fuel that the fuelled loop can never exhaust: the loop performs at most
21 jumps, and between jumps each iteration consumes at least one octet of
forward progress. -/
def readFuel (data : List Nat) : Nat := 22 * (data.length + 2)

/-- Mirrors `PacketReader::read_name` in src/packet.rs, started at cursor
position 0 with no jump recorded and an empty label list. -/
def read_name (data : List Nat) : NameRes :=
  readNameLoop data (readFuel data) 0 0 none []

theorem readNameLoop_ok_jumps_le (data : List Nat) :
    ∀ (fuel pos jumps : Nat) (fr : Option Nat) (acc : List (List Char))
      (nm : List Char) (j : Nat),
      readNameLoop data fuel pos jumps fr acc = .ok nm j → j ≤ 20 := by
  intro fuel
  induction fuel with
  | zero => intro pos jumps fr acc nm j h; simp [readNameLoop] at h
  | succ fuel ih =>
    intro pos jumps fr acc nm j h
    rw [readNameLoop] at h
    by_cases hj : 20 < jumps
    · simp [if_pos hj] at h
    · rw [if_neg hj] at h
      rcases hb : data[pos]? with _ | len
      · rw [hb] at h; simp at h
      · rw [hb] at h
        simp only at h
        by_cases hp : len &&& 0xC0 = 0xC0
        · rw [if_pos hp] at h
          rcases hb2 : data[pos + 1]? with _ | b2
          · rw [hb2] at h; simp at h
          · rw [hb2] at h
            exact ih _ _ _ _ _ _ h
        · rw [if_neg hp] at h
          by_cases hz : len = 0
          · rw [if_pos hz] at h
            cases h
            omega
          · rw [if_neg hz] at h
            by_cases hle : pos + 1 + len ≤ data.length
            · rw [if_pos hle] at h
              exact ih _ _ _ _ _ _ h
            · rw [if_neg hle] at h; simp at h

/-- Input whose first length octet is a compression pointer targeting
offset 0, so each jump lands back on itself. -/
def selfPointer : List Nat := [0xC0, 0x00]

/-- C7: a successful `read_name` performs at most 20 compression-pointer
jumps, and on the crafted input whose length octet at offset 0 points back
to offset 0 it terminates with the jump-limit (`NAME_LOOP`) error after
performing exactly 21 pointer reads. -/
theorem claim_C7_jump_limit :
    (∀ (data : List Nat) (nm : List Char) (j : Nat),
        read_name data = .ok nm j → j ≤ 20)
      ∧ read_name selfPointer = .errLoop 21 := by
  constructor
  · intro data nm j h
    exact readNameLoop_ok_jumps_le data _ _ _ _ _ _ _ h
  · decide

/-- C7 witness: the jump bound applied to the concrete one-octet input
`[0]`, which decodes to the empty name with zero jumps. -/
theorem claim_C7_witness : (0 : Nat) ≤ 20 :=
  claim_C7_jump_limit.1 [0] [] 0 (by decide)

theorem drop_eq_cons_getElem? {α : Type} {l : List α} {n : Nat} {x : α}
    {xs : List α} (h : l.drop n = x :: xs) : l[n]? = some x := by
  induction l generalizing n with
  | nil => simp at h
  | cons a t ih =>
    cases n with
    | zero =>
      simp only [List.drop_zero] at h
      cases h
      simp
    | succ n =>
      simp only [List.drop_succ_cons] at h
      simpa using ih h

theorem length_le_flatten_labelBytes (parts : List (List Char)) :
    parts.length ≤ ((parts.map labelBytes).flatten).length := by
  induction parts with
  | nil => simp
  | cons p rest ih => simp [labelBytes] at ih ⊢; omega

theorem readNameLoop_encoded :
    ∀ (parts : List (List Char)) (data : List Nat) (pos fuel jumps : Nat)
      (fr : Option Nat) (acc : List (List Char)),
      data.drop pos = (parts.map labelBytes).flatten ++ [0] →
      (∀ l ∈ parts, 1 ≤ l.length ∧ l.length ≤ 63 ∧
        ∀ c ∈ l, c.toNat < 128 ∧ c.toLower = c) →
      jumps ≤ 20 → parts.length + 1 ≤ fuel →
      readNameLoop data fuel pos jumps fr acc
        = .ok (joinDot (acc ++ parts)) jumps := by
  intro parts
  induction parts with
  | nil =>
    intro data pos fuel jumps fr acc hdrop _hwf hj hfuel
    cases fuel with
    | zero => omega
    | succ fuel =>
      simp only [List.map_nil, List.flatten_nil, List.nil_append] at hdrop
      rw [readNameLoop, if_neg (by omega), drop_eq_cons_getElem? hdrop]
      norm_num
  | cons p rest ih =>
    intro data pos fuel jumps fr acc hdrop hwf hj hfuel
    obtain ⟨hp1, hp63, hpc⟩ := hwf p (by simp)
    have hwf' : ∀ l ∈ rest, 1 ≤ l.length ∧ l.length ≤ 63 ∧
        ∀ c ∈ l, c.toNat < 128 ∧ c.toLower = c :=
      fun l hl => hwf l (by simp [hl])
    cases fuel with
    | zero => simp at hfuel
    | succ fuel =>
      have hmod : p.length % 256 = p.length := Nat.mod_eq_of_lt (by omega)
      have hdrop' : data.drop pos
          = p.length :: (p.map Char.toNat ++ ((rest.map labelBytes).flatten ++ [0])) := by
        simpa [labelBytes, hmod] using hdrop
      have hget := drop_eq_cons_getElem? hdrop'
      have htail : data.drop (pos + 1)
          = p.map Char.toNat ++ ((rest.map labelBytes).flatten ++ [0]) := by
        have h2 := congrArg (List.drop 1) hdrop'
        rw [List.drop_drop] at h2
        simpa using h2
      have hlen : pos + 1 + p.length ≤ data.length := by
        have hl := congrArg List.length hdrop'
        simp [List.length_drop] at hl
        omega
      have hdropnext : data.drop (pos + 1 + p.length)
          = (rest.map labelBytes).flatten ++ [0] := by
        have h3 := congrArg (List.drop p.length) htail
        rw [List.drop_drop, List.drop_left' (by simp)] at h3
        exact h3
      have htake : (data.drop (pos + 1)).take p.length = p.map Char.toNat := by
        rw [htail]
        exact List.take_left' (by simp)
      have hlabel : ((data.drop (pos + 1)).take p.length).map
          (fun b => (Char.ofNat b).toLower) = p := by
        rw [htake, List.map_map]
        have hid : ∀ c ∈ p, ((fun b => (Char.ofNat b).toLower) ∘ Char.toNat) c
            = id c := by
          intro c hc
          simp [Function.comp, Char.ofNat_toNat, (hpc c hc).2]
        rw [List.map_congr_left hid, List.map_id]
      have h64 : ∀ n, n < 64 → n &&& 0xC0 = 0 := by decide
      have hnotptr : ¬(p.length &&& 0xC0 = 0xC0) := by
        rw [h64 p.length (by omega)]
        omega
      rw [readNameLoop, if_neg (by omega), hget]
      simp only
      rw [if_neg hnotptr, if_neg (by omega), if_pos hlen, hlabel]
      rw [ih data (pos + 1 + p.length) fuel jumps fr (acc ++ [p]) hdropnext hwf'
        hj (by simp at hfuel ⊢; omega)]
      simp

/-- C6: reading back the bytes produced by `write_name` on a lowercase
ASCII domain (labels of 1..63 octets, total wire length at most 255) with
`read_name` yields the same domain again, with no compression jump
performed. -/
theorem claim_C6_name_roundtrip (d : List Char)
    (hlab : ∀ l ∈ splitOnDot d, 1 ≤ l.length ∧ l.length ≤ 63 ∧
      ∀ c ∈ l, c.toNat < 128 ∧ c.toLower = c)
    (_hwire : (write_name d).length ≤ 255) :
    read_name (write_name d) = .ok d 0 := by
  have hmain := readNameLoop_encoded (splitOnDot d) (write_name d) 0
    (readFuel (write_name d)) 0 none [] (by simp [write_name]) hlab
    (by omega) ?fuel
  case fuel =>
    have h1 := length_le_flatten_labelBytes (splitOnDot d)
    have h2 : (write_name d).length
        = (((splitOnDot d).map labelBytes).flatten).length + 1 := by
      simp [write_name]
    unfold readFuel
    omega
  rw [read_name, hmain]
  simp [joinDot_splitOnDot]

/-- C6 witness: the round-trip at the concrete domain "a.b". -/
theorem claim_C6_witness :
    read_name (write_name ['a', '.', 'b']) = .ok ['a', '.', 'b'] 0 :=
  claim_C6_name_roundtrip ['a', '.', 'b'] (by decide) (by decide)

/-- Mirrors `struct DnsQuestion` in src/dns.rs. -/
structure DnsQuestion where
  name : List Char
  qtype : QueryType
  qclass : Nat
deriving DecidableEq

/-- Mirrors `DnsQuestion::write` in src/dns.rs: the octets emitted and the
size the function returns (`write_name`'s count plus 4). -/
def DnsQuestion.write (q : DnsQuestion) : List Nat × Nat :=
  (write_name q.name ++ (u16Bytes q.qtype.to_num ++ u16Bytes q.qclass),
    (write_name q.name).length + 4)

/-- Mirrors `enum DnsRecord` in src/dns.rs.  The IPv4 address is its four
octets, the IPv6 address its eight 16-bit segments. -/
inductive DnsRecord
  | UNKNOWN (domain : List Char) (qtype : Nat) (data_len : Nat) (ttl : Nat)
  | A (domain : List Char) (a0 a1 a2 a3 : Nat) (ttl : Nat)
  | AAAA (domain : List Char) (s0 s1 s2 s3 s4 s5 s6 s7 : Nat) (ttl : Nat)
  | NS (domain : List Char) (host : List Char) (ttl : Nat)
  | CNAME (domain : List Char) (host : List Char) (ttl : Nat)
  | MX (domain : List Char) (priority : Nat) (host : List Char) (ttl : Nat)
  | SOA (domain : List Char) (m_name : List Char) (r_name : List Char)
      (serial refresh retr expire minimum : Nat) (ttl : Nat)
deriving DecidableEq

/-- Mirrors `DnsRecord::write` in src/dns.rs, arm by arm: first component
the octets emitted, second the value of the local `size` variable the
function returns.  Casts `as u16` are `% 65536`; the `u8` octet writes are
`% 256`.  Note the SOA arm emits no rdlength (as in the source), and the
MX arm's returned size adds 4 after the two-octet rdlength write. -/
def DnsRecord.write : DnsRecord → List Nat × Nat
  | .A domain a0 a1 a2 a3 ttl =>
    (write_name domain ++ (u16Bytes (QueryType.to_num .A) ++ (u16Bytes 1
        ++ (u32Bytes ttl ++ (u16Bytes 4
        ++ [a0 % 256, a1 % 256, a2 % 256, a3 % 256])))),
      (write_name domain).length + 14)
  | .AAAA domain s0 s1 s2 s3 s4 s5 s6 s7 ttl =>
    (write_name domain ++ (u16Bytes (QueryType.to_num .AAAA) ++ (u16Bytes 1
        ++ (u32Bytes ttl ++ (u16Bytes 16
        ++ (u16Bytes s0 ++ (u16Bytes s1 ++ (u16Bytes s2 ++ (u16Bytes s3
        ++ (u16Bytes s4 ++ (u16Bytes s5 ++ (u16Bytes s6 ++ u16Bytes s7))))))))))),
      (write_name domain).length + 10 + 16)
  | .NS domain host ttl =>
    (write_name domain ++ (u16Bytes (QueryType.to_num .NS) ++ (u16Bytes 1
        ++ (u32Bytes ttl ++ (u16Bytes (get_name_len host % 65536)
        ++ write_name host)))),
      (write_name domain).length + 8 + 2 + (write_name host).length)
  | .CNAME domain host ttl =>
    (write_name domain ++ (u16Bytes (QueryType.to_num .CNAME) ++ (u16Bytes 1
        ++ (u32Bytes ttl ++ (u16Bytes (get_name_len host % 65536)
        ++ write_name host)))),
      (write_name domain).length + 8 + 2 + (write_name host).length)
  | .SOA domain m_name r_name serial refresh retr expire minimum ttl =>
    (write_name domain ++ (u16Bytes (QueryType.to_num .SOA) ++ (u16Bytes 1
        ++ (u32Bytes ttl ++ (write_name m_name ++ (write_name r_name
        ++ (u32Bytes serial ++ (u32Bytes refresh ++ (u32Bytes retr
        ++ (u32Bytes expire ++ u32Bytes minimum))))))))),
      (write_name domain).length + 8 + (write_name m_name).length
        + (write_name r_name).length + 20)
  | .MX domain priority host ttl =>
    (write_name domain ++ (u16Bytes (QueryType.to_num .MX) ++ (u16Bytes 1
        ++ (u32Bytes ttl ++ (u16Bytes (get_name_len host % 65536 + 2)
        ++ (u16Bytes priority ++ write_name host))))),
      (write_name domain).length + 8 + 4 + 2 + (write_name host).length)
  | .UNKNOWN _ _ _ _ => ([], 0)

/-- Mirrors `struct DnsPacket` in src/dns.rs. -/
structure DnsPacket where
  header : DnsHeader
  questions : List DnsQuestion
  answers : List DnsRecord
  authorities : List DnsRecord
  resources : List DnsRecord
deriving DecidableEq

/-- Mirrors `DnsPacket::new` in src/dns.rs. -/
def DnsPacket.new : DnsPacket :=
  { header := DnsHeader.new, questions := [], answers := []
    authorities := [], resources := [] }

/-- Mirrors `DnsPacket::write` in src/dns.rs: the four header counts are
first recomputed from the section lengths (`len() as u16`, hence
`% 65536`), then the updated header and the four sections are written in
order.  Returns the mutated packet, the octets emitted, and the size value
the function returns. -/
def DnsPacket.write (p : DnsPacket) : DnsPacket × List Nat × Nat :=
  let h := { p.header with
    qd_count := p.questions.length % 65536
    an_count := p.answers.length % 65536
    ar_count := p.resources.length % 65536
    ns_count := p.authorities.length % 65536 }
  (⟨h, p.questions, p.answers, p.authorities, p.resources⟩,
    DnsHeader.write h
      ++ ((p.questions.map (fun q => (DnsQuestion.write q).1)).flatten
      ++ ((p.answers.map (fun r => (DnsRecord.write r).1)).flatten
      ++ ((p.authorities.map (fun r => (DnsRecord.write r).1)).flatten
      ++ (p.resources.map (fun r => (DnsRecord.write r).1)).flatten))),
    12 + (p.questions.map (fun q => (DnsQuestion.write q).2)).sum
      + (p.answers.map (fun r => (DnsRecord.write r).2)).sum
      + (p.authorities.map (fun r => (DnsRecord.write r).2)).sum
      + (p.resources.map (fun r => (DnsRecord.write r).2)).sum)

/-- SOA record used to exhibit the C2 failure. -/
def c2Soa : DnsRecord := .SOA ['a'] ['b'] ['c'] 0 0 0 0 0 0

/-- C2: the record-layout claim fails on the SOA arm.  The octets
`DnsRecord::write` emits for a SOA record are the name, qtype 6, class 1,
the four ttl octets, and then *immediately* the mname encoding
(`[1, 98, 0]` here) followed by rname and the five 32-bit values: no
rdlength field is present between ttl and mname. -/
theorem claim_C2_soa_missing_rdlength :
    (DnsRecord.write c2Soa).1
      = [1, 97, 0, 0, 6, 0, 1, 0, 0, 0, 0,
         1, 98, 0, 1, 99, 0,
         0, 0, 0, 0, 0, 0, 0, 0, 0, 0, 0, 0, 0, 0, 0, 0, 0, 0, 0, 0]
      ∧ (DnsRecord.write c2Soa).1.length = 37 := by
  decide

/-- Packet used to exhibit the C3 failure: a single MX answer. -/
def c3Packet : DnsPacket :=
  { DnsPacket.new with answers := [.MX ['a'] 1 ['b'] 0] }

/-- C3: the size-accounting claim fails on the MX arm.  Serializing a
packet whose only record is an MX answer emits 30 octets (12 header + 18
record) but `DnsPacket::write` returns 32: the MX arm adds `size += 4`
after writing the two-octet rdlength, over-counting by 2. -/
theorem claim_C3_mx_size_overcount :
    (DnsPacket.write c3Packet).2.2 = 32
      ∧ (DnsPacket.write c3Packet).2.1.length = 30 := by
  decide

theorem header_write_length (h : DnsHeader) : (DnsHeader.write h).length = 12 := by
  simp [DnsHeader.write, u16Bytes]

theorem header_write_take (h : DnsHeader) (rest : List Nat) :
    (DnsHeader.write h ++ rest).take 12 = DnsHeader.write h :=
  List.take_left' (header_write_length h)

theorem header_read_write_counts (h : DnsHeader) :
    (DnsHeader.read (DnsHeader.write h)).map DnsHeader.qd_count
        = some (h.qd_count % 65536)
      ∧ (DnsHeader.read (DnsHeader.write h)).map DnsHeader.an_count
        = some (h.an_count % 65536)
      ∧ (DnsHeader.read (DnsHeader.write h)).map DnsHeader.ns_count
        = some (h.ns_count % 65536)
      ∧ (DnsHeader.read (DnsHeader.write h)).map DnsHeader.ar_count
        = some (h.ar_count % 65536) := by
  refine ⟨?_, ?_, ?_, ?_⟩ <;>
    · simp [DnsHeader.read, DnsHeader.write, u16Bytes, List.getD]
      omega

/-- C9: serializing a packet first recomputes the four header count fields
from the section lengths, so both the header of the returned (mutated)
packet and the counts stored in the emitted twelve header octets equal the
lengths of the questions, answers, authorities and resources lists. -/
theorem claim_C9_count_recompute (p : DnsPacket)
    (hq : p.questions.length < 65536) (han : p.answers.length < 65536)
    (hns : p.authorities.length < 65536) (har : p.resources.length < 65536) :
    ((DnsPacket.write p).1.header.qd_count = p.questions.length
      ∧ (DnsPacket.write p).1.header.an_count = p.answers.length
      ∧ (DnsPacket.write p).1.header.ns_count = p.authorities.length
      ∧ (DnsPacket.write p).1.header.ar_count = p.resources.length)
    ∧ ((DnsHeader.read ((DnsPacket.write p).2.1.take 12)).map DnsHeader.qd_count
        = some p.questions.length
      ∧ (DnsHeader.read ((DnsPacket.write p).2.1.take 12)).map DnsHeader.an_count
        = some p.answers.length
      ∧ (DnsHeader.read ((DnsPacket.write p).2.1.take 12)).map DnsHeader.ns_count
        = some p.authorities.length
      ∧ (DnsHeader.read ((DnsPacket.write p).2.1.take 12)).map DnsHeader.ar_count
        = some p.resources.length) := by
  constructor
  · refine ⟨?_, ?_, ?_, ?_⟩ <;>
      simp [DnsPacket.write, Nat.mod_eq_of_lt, hq, han, hns, har]
  · have htake : (DnsPacket.write p).2.1.take 12
        = DnsHeader.write (DnsPacket.write p).1.header := by
      simp only [DnsPacket.write]
      exact header_write_take _ _
    rw [htake]
    obtain ⟨h1, h2, h3, h4⟩ := header_read_write_counts (DnsPacket.write p).1.header
    rw [h1, h2, h3, h4]
    refine ⟨?_, ?_, ?_, ?_⟩ <;>
      simp [DnsPacket.write, Nat.mod_eq_of_lt, hq, han, hns, har]

/-- C9 witness: the recompute property at the empty packet. -/
theorem claim_C9_witness :
    (((DnsPacket.write DnsPacket.new).1.header.qd_count
          = DnsPacket.new.questions.length
      ∧ (DnsPacket.write DnsPacket.new).1.header.an_count
          = DnsPacket.new.answers.length
      ∧ (DnsPacket.write DnsPacket.new).1.header.ns_count
          = DnsPacket.new.authorities.length
      ∧ (DnsPacket.write DnsPacket.new).1.header.ar_count
          = DnsPacket.new.resources.length)
    ∧ ((DnsHeader.read ((DnsPacket.write DnsPacket.new).2.1.take 12)).map
          DnsHeader.qd_count = some DnsPacket.new.questions.length
      ∧ (DnsHeader.read ((DnsPacket.write DnsPacket.new).2.1.take 12)).map
          DnsHeader.an_count = some DnsPacket.new.answers.length
      ∧ (DnsHeader.read ((DnsPacket.write DnsPacket.new).2.1.take 12)).map
          DnsHeader.ns_count = some DnsPacket.new.authorities.length
      ∧ (DnsHeader.read ((DnsPacket.write DnsPacket.new).2.1.take 12)).map
          DnsHeader.ar_count = some DnsPacket.new.resources.length)) :=
  claim_C9_count_recompute DnsPacket.new (by decide) (by decide) (by decide)
    (by decide)

/-- C10: a packet whose answers contain an UNKNOWN record serializes that
record to zero octets, yet the recomputed `an_count` still counts it, so
the `an_count` stored in the mutated header strictly exceeds the number of
answer records that actually contribute octets to the output. -/
theorem claim_C10_unknown_dropped (p : DnsPacket) (d : List Char)
    (q dl t : Nat) (hmem : DnsRecord.UNKNOWN d q dl t ∈ p.answers)
    (hlen : p.answers.length < 65536) :
    (DnsRecord.write (.UNKNOWN d q dl t)).1 = []
      ∧ (p.answers.filter
          (fun r => !((DnsRecord.write r).1.isEmpty))).length
        < (DnsPacket.write p).1.header.an_count := by
  constructor
  · rfl
  · have h1 : (DnsPacket.write p).1.header.an_count = p.answers.length := by
      simp [DnsPacket.write, Nat.mod_eq_of_lt, hlen]
    rw [h1]
    have hle := List.length_filter_le
      (fun r => !((DnsRecord.write r).1.isEmpty)) p.answers
    rcases Nat.eq_or_lt_of_le hle with heq | hlt
    · exfalso
      have hall := List.filter_length_eq_length.mp heq
      have hcontra := hall _ hmem
      simp [DnsRecord.write] at hcontra
    · exact hlt

/-- Packet used in the C10 witness. -/
def c10Packet : DnsPacket :=
  { DnsPacket.new with answers := [.UNKNOWN ['a'] 99 0 0] }

/-- C10 witness: the drop-but-count property at a concrete packet with one
UNKNOWN answer. -/
theorem claim_C10_witness :
    (DnsRecord.write (.UNKNOWN ['a'] 99 0 0)).1 = []
      ∧ (c10Packet.answers.filter
          (fun r => !((DnsRecord.write r).1.isEmpty))).length
        < (DnsPacket.write c10Packet).1.header.an_count :=
  claim_C10_unknown_dropped c10Packet ['a'] 99 0 0 (by simp [c10Packet])
    (by decide)

/-- Body of the `filter_map` closure in `DnsPacket::get_ns` (src/dns.rs):
an authority record contributes `(domain, host)` when it is an NS record
whose domain is a suffix of `qname` (`qname.ends_with(domain)`). -/
def nsEntry (qname : List Char) : DnsRecord → Option (List Char × List Char)
  | .NS domain host _ => if domain.isSuffixOf qname then some (domain, host) else none
  | _ => none

/-- Mirrors `DnsPacket::get_ns` in src/dns.rs: the (domain, host) pairs of
the suffix-matching NS records of the authorities section, in order. -/
def DnsPacket.get_ns (p : DnsPacket) (qname : List Char) :
    List (List Char × List Char) :=
  p.authorities.filterMap (nsEntry qname)

/-- Mirrors `DnsPacket::get_unresolved_ns` in src/dns.rs:
`self.get_ns(qname).map(|(_, host)| host).next()`. -/
def DnsPacket.get_unresolved_ns (p : DnsPacket) (qname : List Char) :
    Option (List Char) :=
  ((p.get_ns qname).map Prod.snd).head?

/-- Glue predicate of the C5 claim: some A record of the additional
(resources) section has domain equal to `host`. -/
def hasGlue (p : DnsPacket) (host : List Char) : Bool :=
  p.resources.any fun r =>
    match r with
    | .A domain _ _ _ _ _ => decide (domain = host)
    | _ => false

/-- Packet used to refute C5: one suffix-matching NS record whose host has
a matching glue A record in the resources section. -/
def c5Packet : DnsPacket :=
  { DnsPacket.new with
    authorities := [.NS ['c', 'o', 'm'] ['n', 's', '.', 'c', 'o', 'm'] 0]
    resources := [.A ['n', 's', '.', 'c', 'o', 'm'] 1 2 3 4 0] }

/-- C5 counterexample: `get_unresolved_ns` returns the NS host even though
a matching glue A record is present in the resources section — the
function never consults the resources section, contradicting the "no
matching glue" conjunct of the claim. -/
theorem claim_C5_counterexample :
    c5Packet.get_unresolved_ns ['x', '.', 'c', 'o', 'm']
        = some ['n', 's', '.', 'c', 'o', 'm']
      ∧ hasGlue c5Packet ['n', 's', '.', 'c', 'o', 'm'] = true := by
  decide

theorem get_ns_head_first (qname : List Char) :
    ∀ (l : List DnsRecord) (host : List Char),
      ((l.filterMap (nsEntry qname)).map Prod.snd).head? = some host →
      ∃ (pre : List DnsRecord) (d : List Char) (ttl : Nat)
        (post : List DnsRecord),
        l = pre ++ DnsRecord.NS d host ttl :: post
          ∧ d.isSuffixOf qname = true
          ∧ ∀ r ∈ pre, nsEntry qname r = none := by
  intro l
  induction l with
  | nil => intro host h; simp at h
  | cons r t ih =>
    intro host h
    rcases he : nsEntry qname r with _ | e
    · rw [List.filterMap_cons_none he] at h
      obtain ⟨pre, d, ttl, post, hl, hsuf, hpre⟩ := ih host h
      refine ⟨r :: pre, d, ttl, post, by simp [hl], hsuf, ?_⟩
      intro r' hr'
      rcases List.mem_cons.mp hr' with hr1 | hr2
      · rw [hr1]; exact he
      · exact hpre r' hr2
    · rw [List.filterMap_cons_some he] at h
      simp only [List.map_cons, List.head?_cons, Option.some.injEq] at h
      cases r with
      | NS domain host' ttl =>
        simp only [nsEntry] at he
        by_cases hs : domain.isSuffixOf qname = true
        · rw [if_pos hs] at he
          cases he
          cases h
          exact ⟨[], domain, ttl, t, by simp, hs, by simp⟩
        · rw [if_neg hs] at he
          cases he
      | UNKNOWN d q dl tt => simp [nsEntry] at he
      | A d a0 a1 a2 a3 tt => simp [nsEntry] at he
      | AAAA d s0 s1 s2 s3 s4 s5 s6 s7 tt => simp [nsEntry] at he
      | CNAME d hh tt => simp [nsEntry] at he
      | MX d pr hh tt => simp [nsEntry] at he
      | SOA d m rn se re rr ex mi tt => simp [nsEntry] at he

/-- C5 amended: when `get_unresolved_ns(qname)` returns `Some(host)`, the
host is that of the first suffix-matching NS record of the authorities
section — with no condition on glue: the function does not consult the
resources section at all. -/
theorem claim_C5_first_ns_amended (p : DnsPacket) (qname host : List Char)
    (h : p.get_unresolved_ns qname = some host) :
    ∃ (pre : List DnsRecord) (d : List Char) (ttl : Nat)
      (post : List DnsRecord),
      p.authorities = pre ++ DnsRecord.NS d host ttl :: post
        ∧ d.isSuffixOf qname = true
        ∧ ∀ r ∈ pre, nsEntry qname r = none :=
  get_ns_head_first qname p.authorities host
    (by simpa [DnsPacket.get_unresolved_ns, DnsPacket.get_ns] using h)

/-- C5 witness: the amended first-host property at the concrete packet of
the counterexample. -/
theorem claim_C5_witness :
    ∃ (pre : List DnsRecord) (d : List Char) (ttl : Nat)
      (post : List DnsRecord),
      c5Packet.authorities
          = pre ++ DnsRecord.NS d ['n', 's', '.', 'c', 'o', 'm'] ttl :: post
        ∧ d.isSuffixOf ['x', '.', 'c', 'o', 'm'] = true
        ∧ ∀ r ∈ pre, nsEntry ['x', '.', 'c', 'o', 'm'] r = none :=
  claim_C5_first_ns_amended c5Packet ['x', '.', 'c', 'o', 'm']
    ['n', 's', '.', 'c', 'o', 'm'] (by decide)

/-- Mirrors Rust `Vec::pop`: removes and returns the LAST element. -/
def vecPop {α : Type} (l : List α) : Option (α × List α) :=
  match l.getLast? with
  | none => none
  | some a => some (a, l.dropLast)

/-- Mirrors the reply construction of `handle_request` in src/main.rs, with
the recursive resolver abstracted into an oracle.  The reply starts from
`DnsPacket::new` with the request id and `rd`, `ra`, `qr` set; if a
question can be popped (`Vec::pop`, i.e. the last one), it is resolved: on
success the question is pushed into the reply and rcode plus the three
record sections are copied from the result, on error rcode becomes
SERVFAIL; with no questions rcode becomes FORMERR. -/
def handle_request (resolve : List Char → QueryType → Except Unit DnsPacket)
    (request : DnsPacket) : DnsPacket :=
  let base : DnsPacket :=
    { DnsPacket.new with
      header := { DnsHeader.new with
        id := request.header.id, rd := true, ra := true, qr := true } }
  match vecPop request.questions with
  | some (question, _) =>
    match resolve question.name question.qtype with
    | .ok result =>
      { base with
        questions := [question]
        header := { base.header with rcode := result.header.rcode }
        answers := result.answers
        authorities := result.authorities
        resources := result.resources }
    | .error _ =>
      { base with header := { base.header with rcode := .SERVFAIL } }
  | none => { base with header := { base.header with rcode := .FORMERR } }

/-- First and second question of the C8 counterexample request. -/
def c8q1 : DnsQuestion := ⟨['a'], .A, 1⟩

def c8q2 : DnsQuestion := ⟨['b'], .A, 1⟩

/-- Request with two questions, used to refute C8. -/
def c8Request : DnsPacket := { DnsPacket.new with questions := [c8q1, c8q2] }

/-- Resolver oracle that succeeds with an empty packet on any query. -/
def c8Resolve : List Char → QueryType → Except Unit DnsPacket :=
  fun _ _ => .ok DnsPacket.new

/-- C8 counterexample: with two questions present, the reply echoes the
SECOND (last) question, not the first: `Vec::pop` removes the last element
of the questions vector. -/
theorem claim_C8_counterexample :
    (handle_request c8Resolve c8Request).questions = [c8q2]
      ∧ (handle_request c8Resolve c8Request).questions ≠ [c8q1] := by
  decide

/-- C8 amended: the assembler removes the LAST question of the request,
resolves it, and echoes that same question in the reply; remaining
questions are discarded (when exactly one question is present it is that
one). -/
theorem claim_C8_last_question_amended
    (resolve : List Char → QueryType → Except Unit DnsPacket)
    (request : DnsPacket) (qs : List DnsQuestion) (q : DnsQuestion)
    (res : DnsPacket)
    (hq : request.questions = qs ++ [q])
    (hres : resolve q.name q.qtype = .ok res) :
    (handle_request resolve request).questions = [q]
      ∧ (handle_request resolve request).header.rcode = res.header.rcode
      ∧ (handle_request resolve request).answers = res.answers
      ∧ (handle_request resolve request).authorities = res.authorities
      ∧ (handle_request resolve request).resources = res.resources
      ∧ (handle_request resolve request).header.id = request.header.id := by
  have hpop : vecPop request.questions = some (q, qs) := by
    rw [hq]
    simp [vecPop, List.getLast?_concat]
  simp [handle_request, hpop, hres]

/-- C8 witness: the amended selection property at the concrete two-question
request. -/
theorem claim_C8_witness :
    (handle_request c8Resolve c8Request).questions = [c8q2]
      ∧ (handle_request c8Resolve c8Request).header.rcode
          = DnsPacket.new.header.rcode
      ∧ (handle_request c8Resolve c8Request).answers = DnsPacket.new.answers
      ∧ (handle_request c8Resolve c8Request).authorities
          = DnsPacket.new.authorities
      ∧ (handle_request c8Resolve c8Request).resources
          = DnsPacket.new.resources
      ∧ (handle_request c8Resolve c8Request).header.id
          = c8Request.header.id :=
  claim_C8_last_question_amended c8Resolve c8Request [c8q1] c8q2
    DnsPacket.new rfl rfl
